import Mathlib

/-!
Verification of the rich-json-viewer tree/search core.

The definitions below are a shallow embedding of the JavaScript source
(`src/unnamed/part_000`, the search-enabled viewer, and `src/src/App.jsx`):

* `JsonValue` models the parsed JSON document (JS numbers are modelled as
  integers; no claim depends on fractional formatting).
* `searchInData` / `searchGo` / `searchArr` / `searchObj` embed the
  `searchInData` function (part_000 lines 20-79).  The JS `slice(0, 1000)`
  on each container is embedded as a fuel counter that inspects at most
  1000 entries, and the per-iteration `if (results.length >= MAX_RESULTS)
  return;` guard is kept at each entry.
* String operations (`jsTrim`, `lowerStr`, `strContains`, ...) are defined
  over character lists so that they compute by kernel reduction; they agree
  with the JS `trim` / `toLowerCase` / `includes` / `startsWith` on the
  ASCII inputs involved here.
* The `TreeNode` component state is embedded as explicit state-passing:
  `shouldAutoExpand` (line 358), `isSearchMatch` (lines 371-373), the
  auto-expand effect (lines 381-389) as `stepExpanded`, the `visibleCount`
  state and its initializer (line 451), the load-more handler (line 606),
  the load-more affordance condition (line 597), and `childEntries`
  (lines 460-479).
* `processJsonl` embeds the JSONL branch of `processFile`
  (lines 117-140), parameterized by the external `JSON.parse` collaborator.
-/

namespace RJV

/-! ## Character-list string helpers (kernel-computable JS string ops) -/

/-- JS whitespace test, restricted to the ASCII whitespace that occurs in the
documents and queries considered here (mirrors `Char.isWhitespace`). -/
def isWsChar (c : Char) : Bool :=
  c == ' ' || c == '\t' || c == '\r' || c == '\n'

/-- JS `String.prototype.trim`: strip leading and trailing whitespace. -/
def trimChars (cs : List Char) : List Char :=
  ((cs.dropWhile isWsChar).reverse.dropWhile isWsChar).reverse

/-- JS `s.trim()`. -/
def jsTrim (s : String) : String := String.mk (trimChars s.data)

/-- JS `s.toLowerCase()` (ASCII case folding via `Char.toLower`). -/
def lowerStr (s : String) : String := String.mk (s.data.map Char.toLower)

/-- Is `pre` a prefix of `cs`? -/
def listPrefix : List Char → List Char → Bool
  | [], _ => true
  | _ :: _, [] => false
  | a :: as, b :: bs => a == b && listPrefix as bs

/-- Does `cs` contain `pat` as a contiguous sublist? -/
def containsAt (pat : List Char) : List Char → Bool
  | [] => pat.isEmpty
  | c :: rest => listPrefix pat (c :: rest) || containsAt pat rest

/-- JS `s.includes(pat)`: substring containment. -/
def strContains (s pat : String) : Bool := containsAt pat.data s.data

/-- JS `s.startsWith(pre)`. -/
def startsWithStr (s pre : String) : Bool := listPrefix pre.data s.data

/-- JS `arr.join "."` on a list of strings, i.e. `String.intercalate "."`
written with kernel-computable list operations. -/
def joinDot : List String → String
  | [] => ""
  | [s] => s
  | s :: rest => s ++ "." ++ joinDot rest

/-! ## Data model -/

/-- A parsed JSON value (the in-memory document handed to the tree/search
core).  JS numbers are modelled as integers: every number literal occurring
in the claims is integral, and `String(n)` agrees with `toString` there. -/
inductive JsonValue where
  | null
  | bool (b : Bool)
  | num (n : Int)
  | str (s : String)
  | arr (items : List JsonValue)
  | obj (fields : List (String × JsonValue))

/-- A path segment as the JS code builds it: object entries push the key
string, array entries push the pre-rendered string `"[i]"`.  We keep the
index as data and recover the exact JS string via `Seg.render`. -/
inductive Seg where
  | key (s : String)
  | idx (i : Nat)

/-- The literal string the JS code pushes onto `path` for this segment. -/
def Seg.render : Seg → String
  | .key s => s
  | .idx i => "[" ++ toString i ++ "]"

/-- The JS `path.join('.')` string as computed on the JS side. -/
def pathToString (p : List Seg) : String := joinDot (p.map Seg.render)

/-- The `isPrimitive` test in `TreeNode`: `typeof data === 'object'` is false, or the
value is `null` (JS `data !== null` excludes null from objects), or it is not
an array.  Arrays and objects are containers; everything else is primitive. -/
def isPrimitiveB : JsonValue → Bool
  | .arr _ => false
  | .obj _ => false
  | _ => true

/-- JS `String(v)` for the values the search stringifies (primitives other
than `null`; the search returns before stringifying `null`, and containers
take the `typeof obj === 'object'` branch, so those cases are unreachable
inside `searchGo` and are given placeholder strings). -/
def jsString : JsonValue → String
  | .null => "null"
  | .bool b => if b then "true" else "false"
  | .num n => toString n
  | .str s => s
  | .arr _ => ""
  | .obj _ => ""

/-- JS truthiness test on a JSON value: `null`, `false`, `0` and `""` are
falsy ( `!data` in `searchInData` line 21). -/
def jsFalsy : JsonValue → Bool
  | .null => true
  | .bool b => !b
  | .num n => n == 0
  | .str s => s == ""
  | .arr _ => false
  | .obj _ => false

/-- The `type` field of a search result object: `'key'` or `'value'`. -/
inductive MatchKind where
  | keyMatch
  | valueMatch
deriving DecidableEq

/-- A search result record as pushed by `searchInData` (lines 47-53 and
63-68): key matches carry the matched key, value matches do not, and both
carry the pre-joined `pathString`. -/
structure SearchResult where
  type : MatchKind
  path : List Seg
  key : Option String
  value : JsonValue
  pathString : String

/-! ## Search engine (`searchInData`, part_000 lines 20-79) -/

/-- The `MAX_RESULTS` cap (line 25). -/
def MAX_RESULTS : Nat := 1000

/-- The `MAX_DEPTH` cap (line 26). -/
def MAX_DEPTH : Nat := 50

mutual
/-- The inner recursive `search(obj, currentPath, depth)` closure
(lines 28-75).  `lq` is the precomputed `lowerQuery`; `acc` is the shared
mutable `results` array threaded explicitly. -/
def searchGo (lq : String) (v : JsonValue) (path : List Seg) (depth : Nat)
    (acc : List SearchResult) : List SearchResult :=
  if MAX_RESULTS ≤ acc.length ∨ MAX_DEPTH < depth then acc
  else
    match v with
    | .null => acc
    | .arr items => searchArr lq 1000 items 0 path depth acc
    | .obj fields => searchObj lq 1000 fields path depth acc
    | prim =>
      if strContains (lowerStr (jsString prim)) lq then
        acc ++ [{ type := .valueMatch, path := path, key := none,
                  value := prim, pathString := pathToString path }]
      else acc

/-- The loop `obj.slice(0, 1000).forEach((item, index) => ...)` (lines 35-39): the
fuel counter embeds the `slice(0, 1000)`, `idx` the running index. -/
def searchArr (lq : String) (fuel : Nat) (items : List JsonValue) (idx : Nat)
    (path : List Seg) (depth : Nat) (acc : List SearchResult) : List SearchResult :=
  match fuel, items with
  | 0, _ => acc
  | _, [] => acc
  | fuel + 1, item :: rest =>
    let acc1 := if MAX_RESULTS ≤ acc.length then acc
      else searchGo lq item (path ++ [.idx idx]) (depth + 1) acc
    searchArr lq fuel rest (idx + 1) path depth acc1

/-- The loop `Object.entries(obj).slice(0, 1000).forEach(...)`
(lines 41-57): check the key, then recurse into the value. -/
def searchObj (lq : String) (fuel : Nat) (fields : List (String × JsonValue))
    (path : List Seg) (depth : Nat) (acc : List SearchResult) : List SearchResult :=
  match fuel, fields with
  | 0, _ => acc
  | _, [] => acc
  | fuel + 1, (k, val) :: rest =>
    let acc1 := if MAX_RESULTS ≤ acc.length then acc
      else
        let newPath := path ++ [.key k]
        let acc2 := if strContains (lowerStr k) lq then
            acc ++ [{ type := .keyMatch, path := newPath, key := some k,
                      value := val, pathString := pathToString newPath }]
          else acc
        searchGo lq val newPath (depth + 1) acc2
    searchObj lq fuel rest path depth acc1
end

/-- The outer `searchInData(data, query)` (lines 20-79): empty on blank query or falsy
document, otherwise run the traversal from the empty path at depth 0 and
return `results.slice(0, MAX_RESULTS)`.  `none` models an absent document. -/
def searchInData (data : Option JsonValue) (query : String) : List SearchResult :=
  match data with
  | none => []
  | some v =>
    if jsTrim query == "" || jsFalsy v then []
    else (searchGo (lowerStr query) v [] 0 []).take MAX_RESULTS

/-! ## Tree node state (`TreeNode`, part_000 lines 356-628) -/

/-- The `shouldAutoExpand` rule (line 358): the Expansion Policy default. -/
def shouldAutoExpand (isLargeFile : Bool) (level : Nat) : Bool :=
  if isLargeFile then decide (level < 1) else decide (level < 2)

/-- The `isSearchMatch` test (lines 371-373): this node's joined path equals some
result's `pathString` or is a strict ancestor of it (result path starts with
this path plus the `"."` separator). -/
def isSearchMatch (results : List SearchResult) (ps : String) : Bool :=
  results.any fun r => r.pathString == ps || startsWithStr r.pathString (ps ++ ".")

/-- Events that mutate a mounted node's `isExpanded` React state: the user
toggle (line 378) and a run of the auto-expand effect (lines 381-389) after
`searchQuery` / `isSearchMatch` change. -/
inductive NodeEvent where
  | toggle
  | searchUpdate (query : String) (isMatch : Bool)

/-- One step of the node's `isExpanded` state: `toggle` flips it; the
auto-expand effect sets it to `true` when the query is truthy (non-empty)
and the node matches, and otherwise leaves it unchanged. -/
def stepExpanded (isExpanded : Bool) : NodeEvent → Bool
  | .toggle => !isExpanded
  | .searchUpdate q m => if q != "" && m then true else isExpanded

/-- The node's `isExpanded` state after a sequence of events, starting from
the `useState(shouldAutoExpand)` initial value. -/
def runExpanded (init : Bool) (evs : List NodeEvent) : Bool :=
  evs.foldl stepExpanded init

/-- The `useState` initializer of `visibleCount` (line 451):
`isLargeFile && isArray ? 100 : (isArray ? data.length : 0)`. -/
def initVisibleCount (isLargeFile isArray : Bool) (len : Nat) : Nat :=
  if isLargeFile && isArray then 100 else if isArray then len else 0

/-- The load-more click handler (line 606):
`setVisibleCount(prev => Math.min(prev + 100, data.length))`. -/
def loadMore (visibleCount len : Nat) : Nat :=
  min (visibleCount + 100) len

/-- The condition under which the load-more affordance is rendered
(lines 583 and 597): the node is expanded and
`isArray && isLargeFile && data.length > visibleCount`. -/
def loadMoreShown (isExpanded isArray isLargeFile : Bool) (len visibleCount : Nat) : Bool :=
  isExpanded && (isArray && isLargeFile && decide (visibleCount < len))

/-- The `childEntries` computation (lines 460-479): empty when collapsed or primitive;
for arrays the first `visibleCount` items under the large-file flag (all
items otherwise), each named `"[i]"`; for objects all entries. -/
def childEntries (isExpanded : Bool) (v : JsonValue) (isLargeFile : Bool)
    (visibleCount : Nat) : List (String × JsonValue) :=
  if !isExpanded || isPrimitiveB v then []
  else
    match v with
    | .arr items =>
      let maxItems := if isLargeFile then visibleCount else items.length
      (items.take maxItems).enum.map fun p => ("[" ++ toString p.1 ++ "]", p.2)
    | .obj fields => fields
    | _ => []

/-! ## JSONL loading (`processFile`, part_000 lines 117-140) -/

/-- Accumulate the current line (reversed in `cur`) and split at newlines. -/
def splitNlGo : List Char → List Char → List String
  | [], cur => [String.mk cur.reverse]
  | c :: rest, cur =>
    if c == '\n' then String.mk cur.reverse :: splitNlGo rest []
    else splitNlGo rest (c :: cur)

/-- JS `content.split('\n')` (split on a single-character separator). -/
def splitNl (s : String) : List String :=
  splitNlGo s.data []

/-- The filter `content.split('\n').filter(line => line.trim() !== '')` (line 119). -/
def nonBlankLines (content : String) : List String :=
  (splitNl content).filter fun l => jsTrim l != ""

/-- The `lines.forEach` loop (lines 123-130): parse each line's trimmed
text, collect parsed values in order and the 1-based indices of the lines
whose parse failed (the code reports `Line ${index + 1}` for those).
`parse` stands for the external `JSON.parse` collaborator. -/
def jsonlScan (parse : String → Option JsonValue) :
    List String → Nat → List JsonValue × List Nat
  | [], _ => ([], [])
  | l :: rest, i =>
    match parse (jsTrim l) with
    | some v =>
      let p := jsonlScan parse rest (i + 1)
      (v :: p.1, p.2)
    | none =>
      let p := jsonlScan parse rest (i + 1)
      (p.1, (i + 1) :: p.2)

/-- The JSONL branch of `processFile` (lines 117-140): the loaded document
(`none` when nothing is loaded) together with the reported failing line
numbers.  All lines failing (with at least one line present) loads nothing;
otherwise the parsed lines populate the tree as an array. -/
def processJsonl (parse : String → Option JsonValue) (content : String) :
    Option JsonValue × List Nat :=
  let p := jsonlScan parse (nonBlankLines content) 0
  if 0 < p.2.length && p.1.length == 0 then (none, p.2)
  else (some (.arr p.1), p.2)

/-! ## Path resolution and well-formedness (for stating search soundness) -/

/-- First-match key lookup in an object's entry list (JS property access on
the parent object). -/
def lookupField : List (String × JsonValue) → String → Option JsonValue
  | [], _ => none
  | (k', v) :: rest, k => if k' == k then some v else lookupField rest k

/-- Resolve a path from a value: object segments look the key up, array
segments index into the items. -/
def getAtPath : JsonValue → List Seg → Option JsonValue
  | v, [] => some v
  | .obj fields, .key k :: rest =>
    match lookupField fields k with
    | some v => getAtPath v rest
    | none => none
  | .arr items, .idx i :: rest =>
    match items.get? i with
    | some v => getAtPath v rest
    | none => none
  | _, _ :: _ => none

/-- No two entries share a key. -/
def nodupKeys : List String → Bool
  | [] => true
  | k :: ks => !(ks.contains k) && nodupKeys ks

mutual
/-- Well-formedness of a document as produced by JSON parsing: every object
has pairwise-distinct keys (JS objects cannot carry duplicate keys). -/
def wf : JsonValue → Bool
  | .arr items => wfList items
  | .obj fields => nodupKeys (fields.map Prod.fst) && wfFields fields
  | _ => true

def wfList : List JsonValue → Bool
  | [] => true
  | v :: rest => wf v && wfList rest

def wfFields : List (String × JsonValue) → Bool
  | [] => true
  | (_, v) :: rest => wf v && wfFields rest
end

/-- What it means for one search result to be genuine for document `doc`
and lowered query `lq`: a key match sits at `pre ++ [key k]` where the
value at `pre` is an object carrying `k` (whose lowercased text contains
the query), and a value match sits at a path holding exactly the recorded
primitive whose lowercased string form contains the query. -/
def matchSound (doc : JsonValue) (lq : String) (r : SearchResult) : Prop :=
  match r.type with
  | .keyMatch =>
    ∃ pre k, r.path = pre ++ [Seg.key k] ∧ r.key = some k ∧
      strContains (lowerStr k) lq = true ∧
      (∃ fields, getAtPath doc pre = some (.obj fields) ∧
        lookupField fields k = some r.value) ∧
      getAtPath doc r.path = some r.value
  | .valueMatch =>
    getAtPath doc r.path = some r.value ∧ isPrimitiveB r.value = true ∧
      strContains (lowerStr (jsString r.value)) lq = true

/-! ## Concrete scenario values used in claim statements and witnesses -/

/-- The small-document scenario value `{"a": {"b": 1, "c": [1,2,3]}}`. -/
def smallDoc : JsonValue :=
  .obj [("a", .obj [("b", .num 1), ("c", .arr [.num 1, .num 2, .num 3])])]

/-- A concrete search result used by the C1 witness: a key match at
`a.ab`, a strict descendant of the node path `a`. -/
def c1SampleResult : SearchResult :=
  { type := .keyMatch, path := [.key "a", .key "ab"], key := some "ab",
    value := .num 1, pathString := "a.ab" }

/-- A full result accumulator (1000 entries) for the C7 witness. -/
def fullAcc : List SearchResult :=
  List.replicate 1000 { type := .valueMatch, path := [], key := none,
                        value := .null, pathString := "" }

/-- The scenario document `{"x": 42, "y": "value42"}` used by the C2 witness. -/
def doc42 : JsonValue := .obj [("x", .num 42), ("y", .str "value42")]

end RJV

namespace RJV

/-! ## Helper lemmas -/

theorem length_childEntries_arr (items : List JsonValue) (vc : Nat) :
    (childEntries true (.arr items) true vc).length = min vc items.length := by
  simp [childEntries, isPrimitiveB]

theorem searchInData_length_le (data : Option JsonValue) (q : String) :
    (searchInData data q).length ≤ MAX_RESULTS := by
  cases data with
  | none => simp [searchInData]
  | some v =>
    simp only [searchInData]
    split
    · simp
    · exact le_trans (List.length_take_le _ _) (le_refl _)

end RJV

namespace RJV

/-! ## Claims C3, C4, C5, C6 -/

/-- C3 counterexample: a node that is default-collapsed (small document,
depth 2), force-expanded by a search match & non-empty query, and then
subject to the search being cleared (the auto-expand effect re-runs with an
empty query and no match) stays expanded: the expansion state does not
return to the Expansion Policy default observed before the forced
expansion. -/
theorem c3_clear_keeps_forced_expansion :
    shouldAutoExpand false 2 = false ∧
    runExpanded (shouldAutoExpand false 2) [.searchUpdate "q" true] = true ∧
    runExpanded (shouldAutoExpand false 2)
      [.searchUpdate "q" true, .searchUpdate "" false] = true :=
  ⟨rfl, rfl, rfl⟩

/-- C3 (amended): clearing the search query leaves every node's expansion
state unchanged — in particular a forced expansion persists after the
search is cleared, until the user explicitly toggles the node. -/
theorem c3_forced_expansion_persists :
    (∀ (e m : Bool), stepExpanded e (.searchUpdate "" m) = e) ∧
    runExpanded (shouldAutoExpand false 2)
      [.searchUpdate "q" true, .searchUpdate "" false] = true ∧
    runExpanded (shouldAutoExpand false 2)
      [.searchUpdate "q" true, .searchUpdate "" false, .toggle] = false := by
  refine ⟨fun e m => ?_, rfl, rfl⟩
  cases e <;> cases m <;> rfl

/-- C4 counterexample: for a 5-element array node under the large-document
flag, the `visibleCount` state is initialized to the page size 100, which
exceeds the node's actual child count 5. -/
theorem c4_initial_window_exceeds_count :
    initVisibleCount true true 5 = 100 ∧ ¬ initVisibleCount true true 5 ≤ 5 :=
  ⟨rfl, by decide⟩

/-- C4 (amended): the number of children actually exposed by the window
(the windowed slice) never exceeds the array's child count; while the
load-more affordance is offered (`visibleCount < length`) a `loadMore` call
strictly increases the stored count, `loadMore` always saturates at the
array length, and once the count reaches the length no further affordance
is offered.  (The stored `visibleCount` itself starts at the page size 100
and may exceed the child count of arrays shorter than one page.) -/
theorem c4_window_bounds :
    ∀ (items : List JsonValue) (vc : Nat),
      (childEntries true (.arr items) true vc).length ≤ items.length ∧
      (vc < items.length → vc < loadMore vc items.length) ∧
      loadMore vc items.length ≤ items.length ∧
      (items.length ≤ vc → loadMoreShown true true true items.length vc = false) := by
  intro items vc
  refine ⟨?_, ?_, ?_, ?_⟩
  · rw [length_childEntries_arr]; omega
  · intro h; simp [loadMore]; omega
  · simp [loadMore]
  · intro h; simp [loadMoreShown]; omega

theorem c4_window_bounds_witness :
    100 < (List.replicate 150 (JsonValue.num 0)).length ∧
    100 < loadMore 100 (List.replicate 150 (JsonValue.num 0)).length :=
  ⟨by rw [List.length_replicate]; omega,
   (c4_window_bounds (List.replicate 150 (JsonValue.num 0)) 100).2.1
     (by rw [List.length_replicate]; omega)⟩

/-- C5: for a 2000-element top-level array under `isLargeDocument`, the
root is default-expanded, the initial visible count is 100, exactly the
first 100 elements are exposed, the remaining-count label reads 1900, one
`loadMore` raises the count to 200, each `loadMore` adds a full page of 100
until it saturates at the array length, and the load-more affordance is
offered iff the visible count is below the child count. -/
theorem c5_large_array_paging :
    ∀ items : List JsonValue, items.length = 2000 →
      shouldAutoExpand true 0 = true ∧
      initVisibleCount true true items.length = 100 ∧
      (childEntries true (.arr items) true 100).length = 100 ∧
      items.length - 100 = 1900 ∧
      loadMore 100 items.length = 200 ∧
      (∀ vc, vc + 100 ≤ items.length → loadMore vc items.length = vc + 100) ∧
      (∀ vc, items.length ≤ vc + 100 → loadMore vc items.length = items.length) ∧
      (∀ vc, loadMoreShown true true true items.length vc = decide (vc < items.length)) := by
  intro items h
  refine ⟨rfl, rfl, ?_, by omega, by simp [loadMore, h], ?_, ?_, ?_⟩
  · rw [length_childEntries_arr, h]; omega
  · intro vc hvc; simp [loadMore]; omega
  · intro vc hvc; simp [loadMore]; omega
  · intro vc; simp [loadMoreShown]

theorem c5_large_array_paging_witness :
    (List.replicate 2000 (JsonValue.num 0)).length = 2000 ∧
    (childEntries true (.arr (List.replicate 2000 (JsonValue.num 0))) true 100).length = 100 ∧
    loadMore 100 (List.replicate 2000 (JsonValue.num 0)).length = 200 :=
  ⟨List.length_replicate 2000 _,
   ((c5_large_array_paging (List.replicate 2000 (JsonValue.num 0))
      (List.length_replicate 2000 _)).2.2.1),
   ((c5_large_array_paging (List.replicate 2000 (JsonValue.num 0))
      (List.length_replicate 2000 _)).2.2.2.2.1)⟩

/-- C6: `shouldAutoExpand` is true iff `depth < 1` under the large-document
flag and iff `depth < 2` otherwise; in the small-document scenario the root
(level 0) and `a` (level 1) are default-expanded and `c` (level 2, reached
as a child of `a`, itself the sole child of the root) is default-collapsed. -/
theorem c6_default_expansion :
    (∀ (isL : Bool) (d : Nat), shouldAutoExpand isL d = true ↔
      ((isL = true ∧ d < 1) ∨ (isL = false ∧ d < 2))) ∧
    shouldAutoExpand false 0 = true ∧
    shouldAutoExpand false 1 = true ∧
    shouldAutoExpand false 2 = false ∧
    childEntries true smallDoc false 0
      = [("a", .obj [("b", .num 1), ("c", .arr [.num 1, .num 2, .num 3])])] ∧
    childEntries true (.obj [("b", .num 1), ("c", .arr [.num 1, .num 2, .num 3])]) false 0
      = [("b", .num 1), ("c", .arr [.num 1, .num 2, .num 3])] := by
  refine ⟨fun isL d => ?_, rfl, rfl, rfl, rfl, rfl⟩
  cases isL <;> simp [shouldAutoExpand]

end RJV

namespace RJV

/-! ## Claims C9, C10, C1 -/

/-- C9: `searchInData` returns the empty result whenever the query trims to
the empty string (empty or whitespace-only) or the document is absent. -/
theorem c9_blank_query_or_absent_doc :
    (∀ (data : Option JsonValue) (q : String), jsTrim q = "" → searchInData data q = []) ∧
    (∀ q : String, searchInData none q = []) := by
  constructor
  · intro data q h
    cases data with
    | none => rfl
    | some v => simp [searchInData, h]
  · intro q; rfl

theorem c9_blank_query_or_absent_doc_witness :
    searchInData (some (.num 5)) "   " = [] ∧ searchInData none "abc" = [] :=
  ⟨c9_blank_query_or_absent_doc.1 (some (.num 5)) "   " rfl,
   c9_blank_query_or_absent_doc.2 "abc"⟩

/-- C10: for the present-but-falsy documents `false`, `0` and `""` the
search returns the empty result for every query — even for queries that are
case-insensitive substrings of the document's stringified value (the last
two conjuncts exhibit such queries for `false` and `0`). -/
theorem c10_falsy_documents_never_match :
    (∀ q : String, searchInData (some (.bool false)) q = []) ∧
    (∀ q : String, searchInData (some (.num 0)) q = []) ∧
    (∀ q : String, searchInData (some (.str "")) q = []) ∧
    strContains (lowerStr (jsString (.bool false))) (lowerStr "FALSE") = true ∧
    strContains (lowerStr (jsString (.num 0))) (lowerStr "0") = true := by
  refine ⟨fun q => ?_, fun q => ?_, fun q => ?_, rfl, rfl⟩ <;>
    simp [searchInData, jsFalsy]

/-- C1: if some search result's `pathString` equals a node's joined path
`ps`, or starts with `ps` plus the `"."` separator, then `isSearchMatch` at
that node is true, and — for any prior expansion state `e`, in particular
the default-collapsed `false` — the auto-expand effect under a non-empty
query reports the node expanded. -/
theorem c1_match_forces_expansion :
    ∀ (results : List SearchResult) (r : SearchResult) (ps q : String) (e : Bool),
      r ∈ results →
      (r.pathString = ps ∨ startsWithStr r.pathString (ps ++ ".") = true) →
      q ≠ "" →
      isSearchMatch results ps = true ∧
      stepExpanded e (.searchUpdate q (isSearchMatch results ps)) = true := by
  intro results r ps q e hmem hcond hq
  have hm : isSearchMatch results ps = true := by
    simp only [isSearchMatch, List.any_eq_true]
    refine ⟨r, hmem, ?_⟩
    rcases hcond with h | h
    · simp [h]
    · simp [h]
  refine ⟨hm, ?_⟩
  rw [hm]
  simp [stepExpanded, hq]

theorem c1_match_forces_expansion_witness :
    isSearchMatch [c1SampleResult] "a" = true ∧
    stepExpanded false (.searchUpdate "ab" (isSearchMatch [c1SampleResult] "a")) = true :=
  c1_match_forces_expansion [c1SampleResult] c1SampleResult "a" "ab" false
    (List.mem_singleton.mpr rfl) (Or.inr rfl) (by decide)

end RJV

namespace RJV

/-! ## Claim C7 -/

theorem searchArr_eq_take (lq : String) :
    ∀ (fuel : Nat) (items : List JsonValue) (idx : Nat) (path : List Seg)
      (depth : Nat) (acc : List SearchResult),
      searchArr lq fuel items idx path depth acc
        = searchArr lq fuel (items.take fuel) idx path depth acc := by
  intro fuel
  induction fuel with
  | zero => intro items idx path depth acc; rw [List.take_zero]; cases items <;> rfl
  | succ n ih =>
    intro items idx path depth acc
    cases items with
    | nil => rfl
    | cons item rest =>
      rw [List.take_succ_cons]
      simp only [searchArr]
      exact ih rest (idx + 1) path depth _

theorem searchObj_eq_take (lq : String) :
    ∀ (fuel : Nat) (fields : List (String × JsonValue)) (path : List Seg)
      (depth : Nat) (acc : List SearchResult),
      searchObj lq fuel fields path depth acc
        = searchObj lq fuel (fields.take fuel) path depth acc := by
  intro fuel
  induction fuel with
  | zero => intro fields path depth acc; rw [List.take_zero]; cases fields <;> rfl
  | succ n ih =>
    intro fields path depth acc
    cases fields with
    | nil => rfl
    | cons kv rest =>
      rw [List.take_succ_cons]
      cases kv with
      | mk k val =>
        simp only [searchObj]
        exact ih rest path depth _

/-- C7: the search traversal is a total function (it is defined by
structural recursion, so it terminates on every document); a call with the
result cap already reached returns immediately, a call past the maximum
depth of 50 returns immediately (descent stops), each container contributes
only its first 1000 entries in traversal order, and the returned result
list never exceeds the 1000-result cap. -/
theorem c7_search_traversal_bounded :
    ∀ (lq : String) (v : JsonValue) (path : List Seg) (depth : Nat)
      (acc : List SearchResult),
      (MAX_RESULTS ≤ acc.length → searchGo lq v path depth acc = acc) ∧
      (MAX_DEPTH < depth → searchGo lq v path depth acc = acc) ∧
      (∀ items, searchGo lq (.arr items) path depth acc
          = searchGo lq (.arr (items.take 1000)) path depth acc) ∧
      (∀ fields, searchGo lq (.obj fields) path depth acc
          = searchGo lq (.obj (fields.take 1000)) path depth acc) ∧
      (∀ (data : Option JsonValue) (q : String),
        (searchInData data q).length ≤ MAX_RESULTS) := by
  intro lq v path depth acc
  refine ⟨?_, ?_, ?_, ?_, fun data q => searchInData_length_le data q⟩
  · intro h
    rw [searchGo.eq_def]
    exact if_pos (Or.inl h)
  · intro h
    rw [searchGo.eq_def]
    exact if_pos (Or.inr h)
  · intro items
    rw [searchGo, searchGo]
    split
    · rfl
    · exact searchArr_eq_take lq 1000 items 0 path depth acc
  · intro fields
    rw [searchGo, searchGo]
    split
    · rfl
    · exact searchObj_eq_take lq 1000 fields path depth acc

theorem c7_search_traversal_bounded_witness :
    MAX_RESULTS ≤ fullAcc.length ∧
    searchGo "x" (.num 1) [] 0 fullAcc = fullAcc ∧
    MAX_DEPTH < 51 ∧
    searchGo "x" (.num 1) [] 51 [] = [] :=
  ⟨by rw [fullAcc, List.length_replicate]; rfl,
   (c7_search_traversal_bounded "x" (.num 1) [] 0 fullAcc).1
     (by rw [fullAcc, List.length_replicate]; rfl),
   by decide,
   (c7_search_traversal_bounded "x" (.num 1) [] 51 []).2.1 (by decide)⟩

end RJV

namespace RJV

/-! ## Claim C8 -/

theorem jsonlScan_fst (parse : String → Option JsonValue) :
    ∀ (ls : List String) (i : Nat),
      (jsonlScan parse ls i).1 = ls.filterMap fun l => parse (jsTrim l) := by
  intro ls
  induction ls with
  | nil => intro i; rfl
  | cons l rest ih =>
    intro i
    simp only [jsonlScan, List.filterMap_cons]
    cases h : parse (jsTrim l) with
    | none => simpa using ih (i + 1)
    | some v => simpa using ih (i + 1)

theorem jsonlScan_snd_length (parse : String → Option JsonValue) :
    ∀ (ls : List String) (i : Nat),
      (jsonlScan parse ls i).2.length
        = (ls.filter fun l => (parse (jsTrim l)).isNone).length := by
  intro ls
  induction ls with
  | nil => intro i; rfl
  | cons l rest ih =>
    intro i
    simp only [jsonlScan, List.filter_cons]
    cases h : parse (jsTrim l) with
    | none => simpa using ih (i + 1)
    | some v => simpa using ih (i + 1)

theorem filterMap_filter_none_length (f : String → Option JsonValue) :
    ∀ ls : List String,
      (ls.filterMap f).length + (ls.filter fun l => (f l).isNone).length = ls.length := by
  intro ls
  induction ls with
  | nil => rfl
  | cons l rest ih =>
    simp only [List.filterMap_cons, List.filter_cons]
    cases h : f l with
    | none => simp; omega
    | some v => simp; omega

/-- C8: JSONL loading parses each non-blank line independently: the loaded
document is the array of the successfully parsed lines unless every line
failed (and at least one non-blank line exists), in which case nothing is
loaded; the number of reported skipped lines equals the number of failing
lines.  The final conjunct is the 3-line scenario with line 2 invalid:
an array of the 2 parsed records is loaded and line 2 is reported skipped.
`parse` stands for the external `JSON.parse` collaborator. -/
theorem c8_jsonl_line_skipping :
    ∀ (parse : String → Option JsonValue) (content : String),
      ((processJsonl parse content).1 =
        if ((nonBlankLines content).filterMap fun l => parse (jsTrim l)).isEmpty
            && !(nonBlankLines content).isEmpty
        then none
        else some (.arr ((nonBlankLines content).filterMap fun l => parse (jsTrim l)))) ∧
      ((processJsonl parse content).2.length =
        ((nonBlankLines content).filter fun l => (parse (jsTrim l)).isNone).length) ∧
      processJsonl
        (fun s => if s == "\x7b\"a\":1\x7d" then some (.obj [("a", .num 1)])
          else if s == "\x7b\"b\":2\x7d" then some (.obj [("b", .num 2)]) else none)
        "\x7b\"a\":1\x7d\noops\n\x7b\"b\":2\x7d"
        = (some (.arr [.obj [("a", .num 1)], .obj [("b", .num 2)]]), [2]) := by
  intro parse content
  refine ⟨?_, ?_, rfl⟩
  · have h1 := jsonlScan_fst parse (nonBlankLines content) 0
    have h2 := jsonlScan_snd_length parse (nonBlankLines content) 0
    have h3 := filterMap_filter_none_length (fun l => parse (jsTrim l)) (nonBlankLines content)
    simp only [processJsonl]
    by_cases hp : ((nonBlankLines content).filterMap fun l => parse (jsTrim l)) = []
    · by_cases hl : nonBlankLines content = []
      · rw [hl]
        rfl
      · have hlen : (nonBlankLines content).length ≠ 0 := fun h =>
          hl (List.length_eq_zero.mp h)
        have hfail : 0 < (jsonlScan parse (nonBlankLines content) 0).2.length := by
          rw [h2]
          rw [hp] at h3
          simp only [List.length_nil, Nat.zero_add] at h3
          omega
        simp [h1, hp, hl, hfail, List.isEmpty_iff]
    · have hne : (jsonlScan parse (nonBlankLines content) 0).1.length ≠ 0 := by
        rw [h1]
        simpa [List.length_eq_zero] using hp
      simp [h1, hp, hne, List.isEmpty_iff]
  · rw [processJsonl]
    split <;> exact jsonlScan_snd_length parse (nonBlankLines content) 0

end RJV

namespace RJV

theorem getAtPath_append :
    ∀ (p : List Seg) (v : JsonValue) (q : List Seg),
      getAtPath v (p ++ q) = (getAtPath v p).bind fun w => getAtPath w q := by
  intro p
  induction p with
  | nil => intro v q; simp [getAtPath]
  | cons s p' ih =>
    intro v q
    cases v with
    | obj fields =>
      cases s with
      | key k =>
        simp only [List.cons_append, getAtPath]
        cases hlk : lookupField fields k with
        | none => simp
        | some w => simp [ih]
      | idx i => simp [getAtPath]
    | arr items =>
      cases s with
      | key k => simp [getAtPath]
      | idx i =>
        simp only [List.cons_append, getAtPath]
        cases hg : items.get? i with
        | none => simp
        | some w => simp [ih]
    | null => cases s <;> simp [getAtPath]
    | bool b => cases s <;> simp [getAtPath]
    | num n => cases s <;> simp [getAtPath]
    | str st => cases s <;> simp [getAtPath]

theorem getAtPath_snoc_key {doc : JsonValue} {path : List Seg}
    {fields : List (String × JsonValue)} {k : String} {v : JsonValue}
    (h1 : getAtPath doc path = some (.obj fields))
    (h2 : lookupField fields k = some v) :
    getAtPath doc (path ++ [Seg.key k]) = some v := by
  rw [getAtPath_append, h1]
  simp [getAtPath, h2]

theorem getAtPath_snoc_idx {doc : JsonValue} {path : List Seg}
    {items : List JsonValue} {i : Nat} {x : JsonValue}
    (h1 : getAtPath doc path = some (.arr items))
    (h2 : items.get? i = some x) :
    getAtPath doc (path ++ [Seg.idx i]) = some x := by
  rw [getAtPath_append, h1]
  rw [List.get?_eq_getElem?] at h2
  simp [getAtPath, h2]

theorem lookupField_mem_nodup :
    ∀ (fields : List (String × JsonValue)) (k : String) (v : JsonValue),
      nodupKeys (fields.map Prod.fst) = true → (k, v) ∈ fields →
      lookupField fields k = some v := by
  intro fields
  induction fields with
  | nil => intro k v _ h; cases h
  | cons kv rest ih =>
    intro k v hnd hmem
    cases kv with
    | mk k' v' =>
      simp only [List.map_cons, nodupKeys, Bool.and_eq_true, Bool.not_eq_true'] at hnd
      rcases List.mem_cons.mp hmem with heq | hrest
      · injection heq with h1 h2
        subst h1; subst h2
        simp [lookupField]
      · have hk : k' ≠ k := by
          intro he
          subst he
          have hkmem : k' ∈ rest.map Prod.fst := List.mem_map.mpr ⟨(k', v), hrest, rfl⟩
          rw [← List.elem_iff] at hkmem
          exact absurd hkmem (by simp [List.contains] at hnd ⊢; exact hnd.1)
        rw [lookupField]
        rw [if_neg (by simpa using hk)]
        exact ih k v hnd.2 hrest

theorem wfList_mem :
    ∀ {items : List JsonValue}, wfList items = true → ∀ {x : JsonValue}, x ∈ items → wf x = true := by
  intro items
  induction items with
  | nil => intro _ x hx; cases hx
  | cons y rest ih =>
    intro h x hx
    rw [wfList, Bool.and_eq_true] at h
    rcases List.mem_cons.mp hx with rfl | hr
    · exact h.1
    · exact ih h.2 hr

theorem wfFields_mem :
    ∀ {fields : List (String × JsonValue)}, wfFields fields = true →
      ∀ {k : String} {v : JsonValue}, (k, v) ∈ fields → wf v = true := by
  intro fields
  induction fields with
  | nil => intro _ k v hx; cases hx
  | cons kv rest ih =>
    intro h k v hx
    cases kv with
    | mk k' v' =>
      rw [wfFields, Bool.and_eq_true] at h
      rcases List.mem_cons.mp hx with heq | hr
      · injection heq with h1 h2; subst h2; exact h.1
      · exact ih h.2 hr

end RJV

namespace RJV

theorem searchGo_null_eq (lq : String) (path : List Seg) (depth : Nat) (acc : List SearchResult) :
    searchGo lq .null path depth acc
      = if MAX_RESULTS ≤ acc.length ∨ MAX_DEPTH < depth then acc else acc := rfl

theorem searchGo_prim_eq (lq : String) (v : JsonValue) (path : List Seg) (depth : Nat)
    (acc : List SearchResult) (hp : isPrimitiveB v = true) (hn : v ≠ .null) :
    searchGo lq v path depth acc
      = if MAX_RESULTS ≤ acc.length ∨ MAX_DEPTH < depth then acc
        else if strContains (lowerStr (jsString v)) lq then
          acc ++ [{ type := .valueMatch, path := path, key := none,
                    value := v, pathString := pathToString path }]
        else acc := by
  cases v with
  | null => exact absurd rfl hn
  | bool b => rfl
  | num n => rfl
  | str s => rfl
  | arr items => simp [isPrimitiveB] at hp
  | obj fields => simp [isPrimitiveB] at hp

theorem searchGo_arr_eq (lq : String) (items : List JsonValue) (path : List Seg)
    (depth : Nat) (acc : List SearchResult) :
    searchGo lq (.arr items) path depth acc
      = if MAX_RESULTS ≤ acc.length ∨ MAX_DEPTH < depth then acc
        else searchArr lq 1000 items 0 path depth acc := rfl

theorem searchGo_obj_eq (lq : String) (fields : List (String × JsonValue)) (path : List Seg)
    (depth : Nat) (acc : List SearchResult) :
    searchGo lq (.obj fields) path depth acc
      = if MAX_RESULTS ≤ acc.length ∨ MAX_DEPTH < depth then acc
        else searchObj lq 1000 fields path depth acc := rfl

theorem searchArr_zero_eq (lq : String) (items : List JsonValue) (idx : Nat)
    (path : List Seg) (depth : Nat) (acc : List SearchResult) :
    searchArr lq 0 items idx path depth acc = acc := by
  cases items <;> rfl

theorem searchObj_zero_eq (lq : String) (fields : List (String × JsonValue))
    (path : List Seg) (depth : Nat) (acc : List SearchResult) :
    searchObj lq 0 fields path depth acc = acc := by
  cases fields <;> rfl

theorem searchArr_cons_eq (lq : String) (fuel : Nat) (item : JsonValue)
    (rest : List JsonValue) (idx : Nat) (path : List Seg) (depth : Nat)
    (acc : List SearchResult) :
    searchArr lq (fuel + 1) (item :: rest) idx path depth acc
      = searchArr lq fuel rest (idx + 1) path depth
          (if MAX_RESULTS ≤ acc.length then acc
           else searchGo lq item (path ++ [.idx idx]) (depth + 1) acc) := rfl

theorem searchObj_cons_eq (lq : String) (fuel : Nat) (k : String) (val : JsonValue)
    (rest : List (String × JsonValue)) (path : List Seg) (depth : Nat)
    (acc : List SearchResult) :
    searchObj lq (fuel + 1) ((k, val) :: rest) path depth acc
      = searchObj lq fuel rest path depth
          (if MAX_RESULTS ≤ acc.length then acc
           else searchGo lq val (path ++ [.key k]) (depth + 1)
             (if strContains (lowerStr k) lq then
               acc ++ [{ type := .keyMatch, path := path ++ [.key k], key := some k,
                         value := val, pathString := pathToString (path ++ [.key k]) }]
             else acc)) := rfl

mutual

theorem searchGo_sound (doc : JsonValue) (lq : String) (v : JsonValue) (path : List Seg)
    (depth : Nat) (acc : List SearchResult)
    (hwf : wf v = true) (hres : getAtPath doc path = some v)
    (hacc : ∀ r ∈ acc, matchSound doc lq r) :
    ∀ r ∈ searchGo lq v path depth acc, matchSound doc lq r := by
  cases v with
  | null =>
    rw [searchGo_null_eq]
    split <;> exact hacc
  | arr items =>
    rw [searchGo_arr_eq]
    split
    · exact hacc
    · exact searchArr_sound doc lq 1000 items 0 path depth acc
        (by simpa [wf] using hwf)
        (fun i x hg => by simpa using getAtPath_snoc_idx hres hg)
        hacc
  | obj fields =>
    rw [searchGo_obj_eq]
    split
    · exact hacc
    · have hw : nodupKeys (fields.map Prod.fst) = true ∧ wfFields fields = true := by
        simpa [wf, Bool.and_eq_true] using hwf
      exact searchObj_sound doc lq 1000 fields fields path depth acc
        hw.2 hres (fun k val hm => lookupField_mem_nodup fields k val hw.1 hm) hacc
  | bool b =>
    rw [searchGo_prim_eq lq (.bool b) path depth acc rfl (by intro h; cases h)]
    split
    · exact hacc
    · split
      · intro r hr
        rcases List.mem_append.mp hr with h | h
        · exact hacc r h
        · rcases List.mem_singleton.mp h with rfl
          exact ⟨hres, rfl, by assumption⟩
      · exact hacc
  | num n =>
    rw [searchGo_prim_eq lq (.num n) path depth acc rfl (by intro h; cases h)]
    split
    · exact hacc
    · split
      · intro r hr
        rcases List.mem_append.mp hr with h | h
        · exact hacc r h
        · rcases List.mem_singleton.mp h with rfl
          exact ⟨hres, rfl, by assumption⟩
      · exact hacc
  | str s =>
    rw [searchGo_prim_eq lq (.str s) path depth acc rfl (by intro h; cases h)]
    split
    · exact hacc
    · split
      · intro r hr
        rcases List.mem_append.mp hr with h | h
        · exact hacc r h
        · rcases List.mem_singleton.mp h with rfl
          exact ⟨hres, rfl, by assumption⟩
      · exact hacc

theorem searchArr_sound (doc : JsonValue) (lq : String) (fuel : Nat)
    (items : List JsonValue) (idx : Nat) (path : List Seg) (depth : Nat)
    (acc : List SearchResult)
    (hwf : wfList items = true)
    (hres : ∀ i x, items.get? i = some x →
      getAtPath doc (path ++ [Seg.idx (idx + i)]) = some x)
    (hacc : ∀ r ∈ acc, matchSound doc lq r) :
    ∀ r ∈ searchArr lq fuel items idx path depth acc, matchSound doc lq r := by
  match fuel, items with
  | 0, items =>
    rw [searchArr_zero_eq]
    exact hacc
  | fuel + 1, [] => exact hacc
  | fuel + 1, item :: rest =>
    rw [searchArr_cons_eq]
    have hwf1 : wf item = true ∧ wfList rest = true := by
      simpa [wfList, Bool.and_eq_true] using hwf
    have hitem : getAtPath doc (path ++ [Seg.idx idx]) = some item := by
      simpa using hres 0 item rfl
    have hacc1 : ∀ r ∈ (if MAX_RESULTS ≤ acc.length then acc
        else searchGo lq item (path ++ [Seg.idx idx]) (depth + 1) acc),
        matchSound doc lq r := by
      split
      · exact hacc
      · exact searchGo_sound doc lq item (path ++ [Seg.idx idx]) (depth + 1) acc
          hwf1.1 hitem hacc
    exact searchArr_sound doc lq fuel rest (idx + 1) path depth _
      hwf1.2
      (fun i x hg => by
        have h2 := hres (i + 1) x (by simpa using hg)
        have he : idx + (i + 1) = idx + 1 + i := by omega
        rw [he] at h2
        exact h2)
      hacc1

theorem searchObj_sound (doc : JsonValue) (lq : String) (fuel : Nat)
    (fields fields0 : List (String × JsonValue)) (path : List Seg) (depth : Nat)
    (acc : List SearchResult)
    (hwf : wfFields fields = true)
    (hobj : getAtPath doc path = some (.obj fields0))
    (hsub : ∀ k val, (k, val) ∈ fields → lookupField fields0 k = some val)
    (hacc : ∀ r ∈ acc, matchSound doc lq r) :
    ∀ r ∈ searchObj lq fuel fields path depth acc, matchSound doc lq r := by
  match fuel, fields with
  | 0, fields =>
    rw [searchObj_zero_eq]
    exact hacc
  | fuel + 1, [] => exact hacc
  | fuel + 1, (k, val) :: rest =>
    rw [searchObj_cons_eq]
    have hwf1 : wf val = true ∧ wfFields rest = true := by
      simpa [wfFields, Bool.and_eq_true] using hwf
    have hlk : lookupField fields0 k = some val := hsub k val (List.mem_cons_self _ _)
    have hval : getAtPath doc (path ++ [Seg.key k]) = some val :=
      getAtPath_snoc_key hobj hlk
    have hacc2 : ∀ r ∈ (if strContains (lowerStr k) lq then
        acc ++ [{ type := .keyMatch, path := path ++ [Seg.key k], key := some k,
                  value := val, pathString := pathToString (path ++ [Seg.key k]) }]
      else acc), matchSound doc lq r := by
      split
      · intro r hr
        rcases List.mem_append.mp hr with h | h
        · exact hacc r h
        · rcases List.mem_singleton.mp h with rfl
          exact ⟨path, k, rfl, rfl, by assumption, ⟨fields0, hobj, hlk⟩, hval⟩
      · exact hacc
    have hacc1 : ∀ r ∈ (if MAX_RESULTS ≤ acc.length then acc
        else searchGo lq val (path ++ [Seg.key k]) (depth + 1)
          (if strContains (lowerStr k) lq then
            acc ++ [{ type := .keyMatch, path := path ++ [Seg.key k], key := some k,
                      value := val, pathString := pathToString (path ++ [Seg.key k]) }]
          else acc)),
        matchSound doc lq r := by
      split
      · exact hacc
      · exact searchGo_sound doc lq val (path ++ [Seg.key k]) (depth + 1) _
          hwf1.1 hval hacc2
    exact searchObj_sound doc lq fuel rest fields0 path depth _
      hwf1.2 hobj (fun k2 v2 hm => hsub k2 v2 (List.mem_cons_of_mem _ hm)) hacc1

end

end RJV

namespace RJV

/-- C2: the search returns at most `MAX_RESULTS` (1000) matches, and every
returned match is genuine for the document: a key match sits at a path
whose final segment is an object key containing the query
(case-insensitively), and a value match sits at a path resolving to the
recorded primitive whose stringified form contains the query — containers
are never directly matched (`matchSound` forces `isPrimitiveB`). -/
theorem c2_search_sound_and_capped :
    ∀ (doc : JsonValue) (q : String), wf doc = true →
      (searchInData (some doc) q).length ≤ MAX_RESULTS ∧
      ∀ r ∈ searchInData (some doc) q, matchSound doc (lowerStr q) r := by
  intro doc q hwf
  refine ⟨searchInData_length_le _ _, ?_⟩
  intro r hr
  rw [searchInData] at hr
  split at hr
  · cases hr
  · have hr2 : r ∈ searchGo (lowerStr q) doc [] 0 [] := List.mem_of_mem_take hr
    exact searchGo_sound doc (lowerStr q) doc [] 0 []
      hwf (by rw [getAtPath]) (fun r2 hr2 => absurd hr2 (List.not_mem_nil r2)) r hr2

theorem c2_search_sound_and_capped_witness :
    wf doc42 = true ∧
    ((searchInData (some doc42) "42").length ≤ MAX_RESULTS ∧
      ∀ r ∈ searchInData (some doc42) "42", matchSound doc42 (lowerStr "42") r) :=
  ⟨rfl, c2_search_sound_and_capped doc42 "42" rfl⟩

end RJV
